import Mathlib

/-!
Verification development for the me-pdf repository.

The embedding below models, in Lean, the code of
  packages/plugin-font/src/lib/local-font-access.ts   (font directory service)
  packages/plugin-font/src/lib/font-plugin.ts         (font capability)
  the pdf-export utility (exportPdfWithCustomAnnotations and helpers)
  the example export buttons (handleExport orchestration)

Modelling conventions:
  - JavaScript strings are Lean `String`s; substring tests (`String.includes`)
    are modelled with `List.IsInfix` on the character lists.
  - `toLowerCase`/`toUpperCase` are modelled with `Char.toLower`/`Char.toUpper`
    (ASCII case mapping); every substring the code tests against is ASCII.
  - Byte buffers are `List Nat`; page coordinates are exact rationals `Rat`
    (the code only performs +, -, *, / and `Math.ceil` on them).
  - Asynchronous external calls (platform font query, blob read, PDFium base
    export, pdf-lib font embedding) are passed in as explicit outcomes or
    oracle functions; a rejected promise is an `Except.error`.
  - JavaScript `Map` objects are modelled as functions `String -> Option _`
    or association lists, matching their get/set/has usage in the code.
  - Names ending in the word "Annotation" are shortened to "Anno"
    (e.g. `deleteAnno` models `deleteAnnotation`).
-/

namespace MePdf

/-! ### Font type detection (local-font-access.ts, detectFontType) -/

inductive FontType where
  | type1
  | trueType
deriving DecidableEq, Repr

/-- Model of `detectFontType(data: Uint8Array)`:
the code first returns TrueType for buffers shorter than 4 bytes, then
returns Type1 when the first two bytes are 0x25 0x21, else TrueType. -/
def detectFontType (data : List Nat) : FontType :=
  if data.length < 4 then FontType.trueType
  else if data.getD 0 0 = 0x25 ∧ data.getD 1 0 = 0x21 then FontType.type1
  else FontType.trueType

/-! ### Weight/style inference (local-font-access.ts, parseFontStyle) -/

/-- `sub.data <:+: s` as a Bool: model of JavaScript `s.includes(sub)`
where `s` is already a character list. -/
def hasSub (s : List Char) (sub : String) : Bool :=
  decide (sub.data <:+: s)

/-- The lowercase concatenation `(style + ' ' + fullName).toLowerCase()`. -/
def loweredName (style fullName : String) : List Char :=
  ((style ++ " " ++ fullName).data.map Char.toLower)

structure FontStyleInfo where
  weight : Nat
  italic : Bool
deriving DecidableEq, Repr

/-- Model of `parseFontStyle(style, fullName)`: the exact if/else-if chain of
the source, with the source's exact substrings (note `'demi bold'` contains a
space, one-word `demibold` is not checked). -/
def parseFontStyle (style fullName : String) : FontStyleInfo :=
  let s := loweredName style fullName
  let weight : Nat :=
    if hasSub s "thin" || hasSub s "hairline" then 100
    else if hasSub s "extra light" || hasSub s "extralight" || hasSub s "ultra light" then 200
    else if hasSub s "light" then 300
    else if hasSub s "semi bold" || hasSub s "semibold" || hasSub s "demi bold" then 600
    else if hasSub s "extra bold" || hasSub s "extrabold" || hasSub s "ultra bold" then 800
    else if hasSub s "bold" then 700
    else if hasSub s "black" || hasSub s "heavy" then 900
    else if hasSub s "medium" then 500
    else 400
  let italic := hasSub s "italic" || hasSub s "oblique"
  ⟨weight, italic⟩

/-! ### Decimal rendering of counters

`natChars n` models the decimal rendering a JavaScript template literal
applies to the duplicate counter (a nonnegative integer). It is written with
explicit fuel so that it reduces by kernel evaluation; `natChars_lt` and
`natChars_ge` below recover the intended recursion equations. -/

def natCharsAux : Nat → Nat → List Char
  | 0, _ => []
  | f + 1, n =>
      if n < 10 then [Char.ofNat (48 + n)]
      else natCharsAux f (n / 10) ++ [Char.ofNat (48 + n % 10)]

def natChars (n : Nat) : List Char := natCharsAux (n + 1) n

def natStr (n : Nat) : String := ⟨natChars n⟩

/-- A character is a decimal digit (JavaScript regex `\d`). -/
def isDigitChar (c : Char) : Bool := 48 ≤ c.toNat && c.toNat ≤ 57

/-- Numeric value of an all-digit character list (JavaScript
`parseInt(s, 10)` on a string of digits). -/
def natOfDigits (ds : List Char) : Nat :=
  ds.foldl (fun a c => 10 * a + (c.toNat - 48)) 0

/-! ### The discovery snapshot (local-font-access.ts, queryLocalFonts) -/

deriving instance DecidableEq for Except

/-- A platform `FontData` entry, together with the outcome its `blob()`
read would have (an external asynchronous call). -/
structure FontData where
  family : String
  fullName : String
  postscriptName : String
  style : String
  blob : Except String (List Nat)
deriving DecidableEq, Repr

/-- The exposed `LocalFont` descriptor. -/
structure LocalFont where
  family : String
  fullName : String
  postscriptName : String
  style : String
  weight : Nat
  italic : Bool
deriving DecidableEq, Repr

/-- `font.fullName.toUpperCase()` contains the special marker
(the code checks for "IT9" or "IT๙"). -/
def hasMarker (f : FontData) : Bool :=
  let upper := f.fullName.data.map Char.toUpper
  hasSub upper "IT9" || hasSub upper "IT๙"

/-- One step of the `fonts.map` body in `queryLocalFonts`: given the
`seenNames` map so far (keyed by raw postscript name, value = duplicates
seen so far), produce the updated map and the exposed descriptor. -/
def processFont (seen : String → Option Nat) (f : FontData) :
    (String → Option Nat) × LocalFont :=
  let st := parseFontStyle f.style f.fullName
  match seen f.postscriptName with
  | some c =>
      let count := c + 1
      let seen' := fun k => if k = f.postscriptName then some count else seen k
      let psName := f.postscriptName ++ "#" ++ natStr count
      let fam :=
        if hasMarker f then f.family ++ " (IT9)"
        else f.family ++ " (Variant " ++ natStr count ++ ")"
      (seen', ⟨fam, f.fullName, psName, f.style, st.weight, st.italic⟩)
  | none =>
      let seen' := fun k => if k = f.postscriptName then some 0 else seen k
      let fam := if hasMarker f then f.family ++ " (IT9)" else f.family
      (seen', ⟨fam, f.fullName, f.postscriptName, f.style, st.weight, st.italic⟩)

/-- The stateful `fonts.map` traversal of `queryLocalFonts`. -/
def processFonts (seen : String → Option Nat) : List FontData → List LocalFont
  | [] => []
  | f :: fs =>
      let p := processFont seen f
      p.2 :: processFonts p.1 fs

/-- Model of `queryLocalFonts()` on the supported, permission-granted path:
the platform returns `fonts`, and the code maps them through the duplicate
disambiguation with an initially empty `seenNames` map. -/
def queryLocalFonts (fonts : List FontData) : List LocalFont :=
  processFonts (fun _ => none) fonts

/-! Spec-side description of the snapshot (for the refinement theorem of C5):
the k-th occurrence of a raw postscript name is determined by counting equal
raw names in the preceding prefix, following the spec's words. -/

/-- Number of occurrences of raw postscript name `raw` in `l`. -/
def countOcc (l : List FontData) (raw : String) : Nat :=
  (l.filter (fun f => f.postscriptName = raw)).length

/-- The exposed name of the (k+1)-th occurrence of `raw` (0-indexed `k`):
first occurrence keeps the raw name, later ones carry the counter suffix. -/
def exposedName (raw : String) (k : Nat) : String :=
  if k = 0 then raw else raw ++ "#" ++ natStr k

/-- The family label of the (k+1)-th occurrence, marker taking priority. -/
def specLabel (f : FontData) (k : Nat) : String :=
  if hasMarker f then f.family ++ " (IT9)"
  else if k = 0 then f.family
  else f.family ++ " (Variant " ++ natStr k ++ ")"

/-- Spec-side exposed descriptor for an occurrence index. -/
def specFont (f : FontData) (k : Nat) : LocalFont :=
  ⟨specLabel f k, f.fullName, exposedName f.postscriptName k, f.style,
    (parseFontStyle f.style f.fullName).weight,
    (parseFontStyle f.style f.fullName).italic⟩

def specSnapshotAux (pre : List FontData) : List FontData → List LocalFont
  | [] => []
  | f :: fs =>
      specFont f (countOcc pre f.postscriptName) ::
        specSnapshotAux (pre ++ [f]) fs

/-- Modelled from the spec: each entry's occurrence index is the number of
equal raw postscript names among earlier entries of the same snapshot. -/
def specSnapshot (fonts : List FontData) : List LocalFont :=
  specSnapshotAux [] fonts

end MePdf

namespace MePdf

/-! ### C7: format detection -/

/-- Claim C7 (counterexample): the claim says detection "returns Type1 exactly
when the first two bytes are 0x25 0x21", but on the 2-byte buffer
`[0x25, 0x21]` — whose first two bytes are exactly 0x25 0x21 — the code
returns TrueType, because the `length < 4` early return fires first. -/
theorem c7_short_type1_buffer_is_truetype :
    detectFontType [0x25, 0x21] = FontType.trueType ∧
    [0x25, 0x21].getD 0 0 = 0x25 ∧ [0x25, 0x21].getD 1 0 = 0x21 := by
  decide

/-- Claim C7 (amended): `detectFontType` returns Type1 exactly when the buffer
is at least 4 bytes long and its first two bytes are 0x25 0x21; every other
buffer — including every buffer shorter than 4 bytes, even one starting with
0x25 0x21 — yields TrueType, with no further disambiguation. -/
theorem c7_detect_type1_iff (data : List Nat) :
    detectFontType data = FontType.type1 ↔
      (4 ≤ data.length ∧ data.getD 0 0 = 0x25 ∧ data.getD 1 0 = 0x21) := by
  unfold detectFontType
  split
  · next h =>
    constructor
    · intro hc; exact absurd hc (by decide)
    · intro hc; omega
  · next h =>
    split
    · next h2 =>
      constructor
      · intro _; exact ⟨by omega, h2⟩
      · intro _; rfl
    · next h2 =>
      constructor
      · intro hc; exact absurd hc (by decide)
      · intro hc; exact absurd ⟨hc.2.1, hc.2.2⟩ h2

/-! ### C8: weight/style inference -/

/-- Claim C8 (counterexample): the claim lists "semibold/demibold→600" among
the substring checks, but the code checks `'demi bold'` (with a space), not
one-word `'demibold'`; the input pair ("Demibold", "Foo Demibold") therefore
falls through to the `'bold'` check and yields weight 700, not 600. -/
theorem c8_demibold_is_700 :
    parseFontStyle "Demibold" "Foo Demibold" = ⟨700, false⟩ := by
  decide

/-- Claim C8 (amended): inference operates on the lowercase concatenation of
style and full name, default weight 400, with the source's exact fixed-order
first-match substrings: thin/hairline→100; "extra light"/"extralight"/"ultra
light"→200; light→300; "semi bold"/"semibold"/"demi bold"→600 (one-word
"demibold" is not checked and falls to bold→700); "extra bold"/"extrabold"/
"ultra bold"→800; bold→700; black/heavy→900; medium→500; italic true iff
"italic" or "oblique" appears. In particular ("Bold Italic","Foo Bold Italic")
yields 700 italic, ("SemiBold","Foo SemiBold") yields 600, and a name
containing both "light" and "bold" yields 300 provided no earlier check
(thin/hairline/"extra light"/"extralight"/"ultra light") matches. -/
theorem c8_parse_font_style :
    (∀ style fullName : String,
      (parseFontStyle style fullName).italic =
        (hasSub (loweredName style fullName) "italic" ||
         hasSub (loweredName style fullName) "oblique")) ∧
    parseFontStyle "Bold Italic" "Foo Bold Italic" = ⟨700, true⟩ ∧
    parseFontStyle "SemiBold" "Foo SemiBold" = ⟨600, false⟩ ∧
    parseFontStyle "Demi Bold" "Foo Demi Bold" = ⟨600, false⟩ ∧
    (∀ style fullName : String,
      hasSub (loweredName style fullName) "light" = true →
      hasSub (loweredName style fullName) "thin" = false →
      hasSub (loweredName style fullName) "hairline" = false →
      hasSub (loweredName style fullName) "extra light" = false →
      hasSub (loweredName style fullName) "extralight" = false →
      hasSub (loweredName style fullName) "ultra light" = false →
      (parseFontStyle style fullName).weight = 300) := by
  refine ⟨?_, by decide, by decide, by decide, ?_⟩
  · intro style fullName
    rfl
  · intro style fullName hl ht hh he1 he2 he3
    unfold parseFontStyle
    simp only [ht, hh, he1, he2, he3, hl, Bool.or_self, Bool.false_or,
      Bool.or_false]
    norm_num

/-- Witness for the amended C8 theorem: a name containing both "light" and
"bold" (with no earlier-matching substring) resolves to weight 300 by check
order, e.g. ("Light Bold", "Foo Light Bold"). -/
theorem c8_parse_font_style_witness :
    (parseFontStyle "Light Bold" "Foo Light Bold").weight = 300 :=
  c8_parse_font_style.2.2.2.2 "Light Bold" "Foo Light Bold"
    (by decide) (by decide) (by decide) (by decide) (by decide) (by decide)

/-! ### Decimal-rendering lemmas -/

theorem natCharsAux_fuel :
    ∀ n f₁ f₂, n < f₁ → n < f₂ → natCharsAux f₁ n = natCharsAux f₂ n := by
  intro n
  induction n using Nat.strong_induction_on with
  | _ n ih =>
    intro f₁ f₂ h₁ h₂
    match f₁, f₂, h₁, h₂ with
    | g₁ + 1, g₂ + 1, h₁, h₂ =>
      show natCharsAux (g₁ + 1) n = natCharsAux (g₂ + 1) n
      simp only [natCharsAux]
      by_cases h : n < 10
      · simp [h]
      · simp only [h, if_false]
        have hd : n / 10 < n := Nat.div_lt_self (by omega) (by omega)
        rw [ih (n / 10) hd g₁ g₂ (by omega) (by omega)]

theorem natChars_lt {n : Nat} (h : n < 10) :
    natChars n = [Char.ofNat (48 + n)] := by
  unfold natChars natCharsAux
  simp [h]

theorem natChars_ge {n : Nat} (h : ¬ n < 10) :
    natChars n = natChars (n / 10) ++ [Char.ofNat (48 + n % 10)] := by
  have step : natChars n = natCharsAux n (n / 10) ++ [Char.ofNat (48 + n % 10)] := by
    show natCharsAux (n + 1) n = _
    simp only [natCharsAux, h, if_false]
  rw [step, natCharsAux_fuel (n / 10) n (n / 10 + 1)
    (Nat.div_lt_self (by omega) (by omega)) (by omega)]
  rfl

theorem natChars_ne_nil (n : Nat) : natChars n ≠ [] := by
  by_cases h : n < 10
  · rw [natChars_lt h]; simp
  · rw [natChars_ge h]; simp

theorem hash_not_mem_natChars (n : Nat) : Char.ofNat 35 ∉ natChars n := by
  induction n using Nat.strong_induction_on with
  | _ n ih =>
    by_cases h : n < 10
    · rw [natChars_lt h]
      interval_cases n <;> decide
    · rw [natChars_ge h]
      intro hmem
      rcases List.mem_append.mp hmem with hmem | hmem
      · exact ih (n / 10) (Nat.div_lt_self (by omega) (by omega)) hmem
      · have h10 : n % 10 < 10 := Nat.mod_lt _ (by omega)
        have : Char.ofNat 35 = Char.ofNat (48 + n % 10) := by
          simpa using hmem
        revert this
        interval_cases h' : n % 10 <;> decide

theorem digitChar_inj {a b : Nat} (ha : a < 10) (hb : b < 10)
    (h : Char.ofNat (48 + a) = Char.ofNat (48 + b)) : a = b := by
  interval_cases a <;> interval_cases b <;> revert h <;> decide

theorem natChars_inj : ∀ a b : Nat, natChars a = natChars b → a = b := by
  intro a
  induction a using Nat.strong_induction_on with
  | _ a ih =>
    intro b h
    by_cases ha : a < 10 <;> by_cases hb : b < 10
    · rw [natChars_lt ha, natChars_lt hb] at h
      exact digitChar_inj ha hb (List.singleton_injective h)
    · rw [natChars_lt ha, natChars_ge hb] at h
      have hlen := congrArg List.length h
      rw [List.length_append] at hlen
      simp only [List.length_singleton] at hlen
      have hnil : natChars (b / 10) = [] := by
        apply List.eq_nil_of_length_eq_zero
        omega
      exact absurd hnil (natChars_ne_nil _)
    · rw [natChars_ge ha, natChars_lt hb] at h
      have hlen := congrArg List.length h
      rw [List.length_append] at hlen
      simp only [List.length_singleton] at hlen
      have hnil : natChars (a / 10) = [] := by
        apply List.eq_nil_of_length_eq_zero
        omega
      exact absurd hnil (natChars_ne_nil _)
    · rw [natChars_ge ha, natChars_ge hb] at h
      have hsplit := List.append_inj' h (by simp)
      have h1 : a / 10 = b / 10 :=
        ih (a / 10) (Nat.div_lt_self (by omega) (by omega)) (b / 10) hsplit.1
      have h2 : a % 10 = b % 10 :=
        digitChar_inj (Nat.mod_lt _ (by omega)) (Nat.mod_lt _ (by omega))
          (List.singleton_injective hsplit.2)
      have ea := Nat.div_add_mod a 10
      have eb := Nat.div_add_mod b 10
      omega

/-! ### Unique splitting of an exposed name at its separator -/

theorem append_hash_inj :
    ∀ (l₁ : List Char) {l₂ d₁ d₂ : List Char},
      Char.ofNat 35 ∉ l₁ → Char.ofNat 35 ∉ l₂ →
      l₁ ++ Char.ofNat 35 :: d₁ = l₂ ++ Char.ofNat 35 :: d₂ →
      l₁ = l₂ ∧ d₁ = d₂ := by
  intro l₁
  induction l₁ with
  | nil =>
    intro l₂ d₁ d₂ _ h₂ h
    cases l₂ with
    | nil => simpa using h
    | cons c l₂' =>
      simp at h
      exact absurd (h.1 ▸ List.mem_cons_self c l₂') h₂
  | cons c l₁' ih =>
    intro l₂ d₁ d₂ h₁ h₂ h
    cases l₂ with
    | nil =>
      simp at h
      exact absurd (h.1 ▸ List.mem_cons_self c l₁') h₁
    | cons c' l₂' =>
      simp only [List.cons_append, List.cons.injEq] at h
      have hr := ih (fun hm => h₁ (List.mem_cons_of_mem c hm))
        (fun hm => h₂ (List.mem_cons_of_mem c' hm)) h.2
      exact ⟨by rw [h.1, hr.1], hr.2⟩

theorem data_append (a b : String) : (a ++ b).data = a.data ++ b.data := rfl

theorem data_natStr (n : Nat) : (natStr n).data = natChars n := rfl

theorem exposedName_inj {r₁ r₂ : String} {k₁ k₂ : Nat}
    (h₁ : Char.ofNat 35 ∉ r₁.data) (h₂ : Char.ofNat 35 ∉ r₂.data)
    (h : exposedName r₁ k₁ = exposedName r₂ k₂) : r₁ = r₂ ∧ k₁ = k₂ := by
  have hash : ("#" : String).data = [Char.ofNat 35] := by decide
  match k₁, k₂ with
  | 0, 0 => exact ⟨by simpa [exposedName] using h, rfl⟩
  | 0, k₂ + 1 =>
    exfalso
    have h' : r₁ = r₂ ++ "#" ++ natStr (k₂ + 1) := by
      simpa [exposedName] using h
    apply h₁
    rw [h', data_append, data_append, hash]
    simp
  | k₁ + 1, 0 =>
    exfalso
    have h' : r₁ ++ "#" ++ natStr (k₁ + 1) = r₂ := by
      simpa [exposedName] using h
    apply h₂
    rw [← h', data_append, data_append, hash]
    simp
  | k₁ + 1, k₂ + 1 =>
    have h' : r₁ ++ "#" ++ natStr (k₁ + 1) = r₂ ++ "#" ++ natStr (k₂ + 1) := by
      simpa [exposedName] using h
    have hdata := congrArg String.data h'
    rw [data_append, data_append, data_append, data_append, hash,
      data_natStr, data_natStr] at hdata
    simp only [List.append_assoc, List.singleton_append] at hdata
    have hsplit := append_hash_inj r₁.data h₁ h₂ hdata
    have hr : r₁ = r₂ := congrArg String.mk hsplit.1
    have hk : k₁ + 1 = k₂ + 1 := natChars_inj _ _ hsplit.2
    exact ⟨hr, by omega⟩

/-! ### C5: the discovery snapshot refines the spec-side description -/

/-- The `seenNames` map determined by an already-processed prefix:
a raw name maps to (number of occurrences so far) - 1, absent if zero. -/
def seenOf (pre : List FontData) : String → Option Nat := fun raw =>
  if countOcc pre raw = 0 then none else some (countOcc pre raw - 1)

theorem countOcc_append (pre : List FontData) (f : FontData) (raw : String) :
    countOcc (pre ++ [f]) raw =
      countOcc pre raw + (if f.postscriptName = raw then 1 else 0) := by
  unfold countOcc
  rw [List.filter_append]
  by_cases h : f.postscriptName = raw
  · simp [h]
  · simp [h]

theorem countOcc_le_append (pre : List FontData) (f : FontData) (raw : String) :
    countOcc pre raw ≤ countOcc (pre ++ [f]) raw := by
  rw [countOcc_append]
  omega

theorem processFont_seenOf (pre : List FontData) (f : FontData) :
    processFont (seenOf pre) f =
      (seenOf (pre ++ [f]), specFont f (countOcc pre f.postscriptName)) := by
  unfold processFont seenOf
  by_cases h0 : countOcc pre f.postscriptName = 0
  · simp only [h0, if_pos rfl, reduceIte]
    rw [Prod.mk.injEq]
    constructor
    · funext k
      by_cases hk : k = f.postscriptName
      · subst hk
        rw [countOcc_append]
        simp [h0]
      · have hps : ¬ f.postscriptName = k := fun h => hk h.symm
        rw [countOcc_append]
        simp [hk, hps]
    · unfold specFont specLabel exposedName
      simp [h0]
  · simp only [h0, reduceIte]
    have hc : countOcc pre f.postscriptName - 1 + 1 = countOcc pre f.postscriptName := by
      omega
    rw [Prod.mk.injEq]
    constructor
    · funext k
      by_cases hk : k = f.postscriptName
      · subst hk
        rw [countOcc_append]
        simp only [if_pos rfl]
        have : ¬ countOcc pre f.postscriptName + 1 = 0 := by omega
        simp [this, hc]
      · have hps : ¬ f.postscriptName = k := fun h => hk h.symm
        rw [countOcc_append]
        simp [hk, hps]
    · unfold specFont specLabel exposedName
      simp [h0, hc]

theorem processFonts_seenOf :
    ∀ (fs : List FontData) (pre : List FontData),
      processFonts (seenOf pre) fs = specSnapshotAux pre fs := by
  intro fs
  induction fs with
  | nil => intro pre; rfl
  | cons f fs ih =>
    intro pre
    show (processFont (seenOf pre) f).2 ::
        processFonts (processFont (seenOf pre) f).1 fs = _
    rw [processFont_seenOf]
    show specFont f (countOcc pre f.postscriptName) ::
        processFonts (seenOf (pre ++ [f])) fs = _
    rw [ih (pre ++ [f])]
    rfl

theorem queryLocalFonts_eq_specSnapshot (fonts : List FontData) :
    queryLocalFonts fonts = specSnapshot fonts := by
  have h0 : (fun _ : String => (none : Option Nat)) = seenOf [] := by
    funext raw
    rfl
  unfold queryLocalFonts specSnapshot
  rw [h0, processFonts_seenOf]

/-! Distinctness of the exposed names, assuming no raw postscript name
contains the separator character. -/

theorem mem_specSnapshotAux_names :
    ∀ (fs pre : List FontData) (m : String),
      m ∈ (specSnapshotAux pre fs).map (fun lf => lf.postscriptName) →
      ∃ g k, g ∈ fs ∧ m = exposedName g.postscriptName k ∧
        countOcc pre g.postscriptName ≤ k := by
  intro fs
  induction fs with
  | nil => intro pre m h; simp [specSnapshotAux] at h
  | cons f fs ih =>
    intro pre m h
    simp only [specSnapshotAux, List.map_cons, List.mem_cons] at h
    rcases h with h | h
    · exact ⟨f, countOcc pre f.postscriptName, List.mem_cons_self f fs, h, le_refl _⟩
    · obtain ⟨g, k, hg, hm, hk⟩ := ih (pre ++ [f]) m h
      exact ⟨g, k, List.mem_cons_of_mem f hg, hm,
        le_trans (countOcc_le_append pre f g.postscriptName) hk⟩

theorem specSnapshotAux_names_nodup :
    ∀ (fs pre : List FontData),
      (∀ g ∈ fs, Char.ofNat 35 ∉ g.postscriptName.data) →
      ((specSnapshotAux pre fs).map (fun lf => lf.postscriptName)).Nodup := by
  intro fs
  induction fs with
  | nil => intro pre _; simp [specSnapshotAux]
  | cons f fs ih =>
    intro pre hsharp
    simp only [specSnapshotAux, List.map_cons, List.nodup_cons]
    constructor
    · intro hmem
      obtain ⟨g, k, hg, hm, hk⟩ := mem_specSnapshotAux_names fs (pre ++ [f]) _ hmem
      obtain ⟨heq, hk2⟩ := exposedName_inj
        (hsharp f (List.mem_cons_self f fs))
        (hsharp g (List.mem_cons_of_mem f hg)) hm
      rw [countOcc_append, heq, if_pos rfl] at hk
      rw [heq] at hk2
      omega
    · exact ih (pre ++ [f]) (fun g hg => hsharp g (List.mem_cons_of_mem f hg))

/-- Claim C5 (counterexample): the claim asserts the exposed postscript names
are pairwise distinct for every discovery snapshot, but when a raw postscript
name itself already carries a duplicate-style suffix the scheme collides:
for raw names ["A", "A", "A#1"] the exposed names are ["A", "A#1", "A#1"]. -/
theorem c5_duplicate_name_collision :
    ((queryLocalFonts
        [⟨"F", "A", "A", "R", Except.ok []⟩,
         ⟨"F", "A", "A", "R", Except.ok []⟩,
         ⟨"F", "B", "A#1", "R", Except.ok []⟩]).map
      (fun lf => lf.postscriptName)) = ["A", "A#1", "A#1"] ∧
    ¬ ((queryLocalFonts
        [⟨"F", "A", "A", "R", Except.ok []⟩,
         ⟨"F", "A", "A", "R", Except.ok []⟩,
         ⟨"F", "B", "A#1", "R", Except.ok []⟩]).map
      (fun lf => lf.postscriptName)).Nodup := by
  constructor
  · rfl
  · decide

/-- Claim C5 (amended): every discovery snapshot equals the spec-side
description — the k-th occurrence (k ≥ 2) of a raw postscript name is exposed
as raw#(k-1) with family label "(Variant k-1)", the special marker label
"(IT9)" taking priority, the first occurrence keeping its raw name — and the
exposed names are pairwise distinct provided no raw postscript name contains
the separator character '#' (without that proviso they can collide, see the
counterexample). -/
theorem c5_snapshot_spec (fonts : List FontData) :
    queryLocalFonts fonts = specSnapshot fonts ∧
    ((∀ g ∈ fonts, Char.ofNat 35 ∉ g.postscriptName.data) →
      ((queryLocalFonts fonts).map (fun lf => lf.postscriptName)).Nodup) := by
  refine ⟨queryLocalFonts_eq_specSnapshot fonts, fun hsharp => ?_⟩
  rw [queryLocalFonts_eq_specSnapshot fonts]
  exact specSnapshotAux_names_nodup fonts [] hsharp

/-- Witness for C5: on a snapshot with a genuine duplicate raw name
(["A", "A"], no '#' in raw names) the amended theorem yields the snapshot
equality and distinct exposed names. -/
theorem c5_snapshot_spec_witness :
    queryLocalFonts
        [⟨"F", "A", "A", "R", Except.ok []⟩, ⟨"F", "A", "A", "R", Except.ok []⟩] =
      specSnapshot
        [⟨"F", "A", "A", "R", Except.ok []⟩, ⟨"F", "A", "A", "R", Except.ok []⟩] ∧
    ((queryLocalFonts
        [⟨"F", "A", "A", "R", Except.ok []⟩, ⟨"F", "A", "A", "R", Except.ok []⟩]).map
      (fun lf => lf.postscriptName)).Nodup :=
  ⟨(c5_snapshot_spec _).1, (c5_snapshot_spec _).2 (by decide)⟩

/-! ### Loading a font (local-font-access.ts, loadFontData) -/

/-- Greedy decomposition at the last '#' whose suffix is one or more digits:
the backtracking search of the JavaScript regex on `"(.+)#(\d+)"` anchored at
both ends, preferring the rightmost admissible separator (which maximises the
first capture group). Returns the (possibly empty) prefix and digit suffix. -/
def dupSplit : List Char → Option (List Char × List Char)
  | [] => none
  | c :: rest =>
      match dupSplit rest with
      | some p => some (c :: p.1, p.2)
      | none =>
          if c = Char.ofNat 35 ∧ rest ≠ [] ∧ rest.all isDigitChar then
            some ([], rest)
          else none

/-- Model of matching the postscript name against the duplicate-suffix
pattern followed by `parseInt` on the digit group: `none` when the regex
does not match (the `(.+)` group needs at least one character). -/
def duplicateMatch (s : String) : Option (String × Nat) :=
  match dupSplit s.data with
  | some p => if p.1 = [] then none else some (⟨p.1⟩, natOfDigits p.2)
  | none => none

structure LoadedFont where
  family : String
  fullName : String
  postscriptName : String
  style : String
  data : List Nat
  fontType : FontType
deriving DecidableEq, Repr

inductive FontErr where
  | unsupported
  | queryError (msg : String)
  | blobError (msg : String)
deriving DecidableEq, Repr

/-- The tail of `loadFontData` once the matching platform entry (or none)
has been selected: read the blob, detect the format, build the result;
an absent entry yields `ok none` (null), not an error. -/
def finishLoad : Option FontData → Except FontErr (Option LoadedFont)
  | none => Except.ok none
  | some fd =>
      match fd.blob with
      | Except.error e => Except.error (FontErr.blobError e)
      | Except.ok data =>
          Except.ok (some ⟨fd.family, fd.fullName, fd.postscriptName, fd.style,
            data, detectFontType data⟩)

/-- The raw name and index `loadFontData` will look up: the captured groups
of the duplicate-suffix pattern when it matches, else the name itself at
index 0. -/
def targetOf (postscriptName : String) : String × Nat :=
  match duplicateMatch postscriptName with
  | some p => p
  | none => (postscriptName, 0)

/-- Model of `loadFontData(postscriptName)`: `supported` is the
`isLocalFontAccessSupported()` probe (throws when false), `platform` is the
outcome of the `window.queryLocalFonts()` call. -/
def loadFontData (supported : Bool) (platform : Except String (List FontData))
    (postscriptName : String) : Except FontErr (Option LoadedFont) :=
  if supported = false then Except.error FontErr.unsupported
  else
    match platform with
    | Except.error e => Except.error (FontErr.queryError e)
    | Except.ok fonts =>
        finishLoad
          ((fonts.filter
              (fun f => f.postscriptName = (targetOf postscriptName).1)).get?
            (targetOf postscriptName).2)

theorem isDigitChar_ne_hash {c : Char} (h : isDigitChar c = true) :
    c ≠ Char.ofNat 35 := by
  intro hc
  subst hc
  simp [isDigitChar] at h

theorem dupSplit_of_no_hash :
    ∀ cs : List Char, Char.ofNat 35 ∉ cs → dupSplit cs = none := by
  intro cs
  induction cs with
  | nil => intro _; rfl
  | cons c rest ih =>
    intro h
    have hrest : dupSplit rest = none :=
      ih (fun hm => h (List.mem_cons_of_mem c hm))
    have hc : ¬ c = Char.ofNat 35 := fun hc => h (hc ▸ List.mem_cons_self c rest)
    unfold dupSplit
    rw [hrest]
    simp [hc]

theorem dupSplit_append_digits :
    ∀ (l ds : List Char), ds ≠ [] → ds.all isDigitChar = true →
      dupSplit (l ++ Char.ofNat 35 :: ds) = some (l, ds) := by
  intro l
  induction l with
  | nil =>
    intro ds hne hall
    have hnh : Char.ofNat 35 ∉ ds := by
      intro hm
      exact isDigitChar_ne_hash (List.all_eq_true.mp hall _ hm) rfl
    show dupSplit (Char.ofNat 35 :: ds) = some ([], ds)
    unfold dupSplit
    rw [dupSplit_of_no_hash ds hnh]
    simp [hne, hall]
  | cons c l ih =>
    intro ds hne hall
    show dupSplit (c :: (l ++ Char.ofNat 35 :: ds)) = some (c :: l, ds)
    unfold dupSplit
    rw [ih ds hne hall]

theorem dupSplit_sound :
    ∀ cs r d, dupSplit cs = some (r, d) →
      cs = r ++ Char.ofNat 35 :: d ∧ d ≠ [] ∧ d.all isDigitChar = true := by
  intro cs
  induction cs with
  | nil => intro r d h; simp [dupSplit] at h
  | cons c rest ih =>
    intro r d h
    unfold dupSplit at h
    cases hrec : dupSplit rest with
    | some p =>
      rw [hrec] at h
      simp only [Option.some.injEq, Prod.mk.injEq] at h
      obtain ⟨hsplit, hne, hall⟩ := ih p.1 p.2 (by rw [hrec])
      rw [← h.1, ← h.2]
      refine ⟨?_, hne, hall⟩
      rw [hsplit]
      simp
    | none =>
      rw [hrec] at h
      by_cases hcond : c = Char.ofNat 35 ∧ rest ≠ [] ∧ rest.all isDigitChar
      · rw [if_pos hcond] at h
        simp only [Option.some.injEq, Prod.mk.injEq] at h
        rw [← h.1, ← h.2]
        refine ⟨?_, hcond.2.1, hcond.2.2⟩
        rw [hcond.1]
        rfl
      · rw [if_neg hcond] at h
        exact absurd h (by simp)

theorem duplicateMatch_some {s raw : String} {n : Nat}
    (h : duplicateMatch s = some (raw, n)) :
    ∃ ds, s.data = raw.data ++ Char.ofNat 35 :: ds ∧ ds ≠ [] ∧
      ds.all isDigitChar = true ∧ n = natOfDigits ds ∧ raw.data ≠ [] := by
  unfold duplicateMatch at h
  cases hsplit : dupSplit s.data with
  | none => rw [hsplit] at h; exact absurd h (by simp)
  | some p =>
    rw [hsplit] at h
    simp only at h
    by_cases hp : p.1 = []
    · rw [if_pos hp] at h; exact absurd h (by simp)
    · rw [if_neg hp] at h
      simp only [Option.some.injEq, Prod.mk.injEq] at h
      obtain ⟨hdata, hne, hall⟩ := dupSplit_sound s.data p.1 p.2 (by rw [hsplit])
      have hrd : raw.data = p.1 := (congrArg String.data h.1).symm
      refine ⟨p.2, ?_, hne, hall, h.2.symm, ?_⟩
      · rw [hdata, hrd]
      · rw [hrd]; exact hp

/-! ### C6: load resolution -/

/-- Claim C6: for a queried name of the form raw#n (n one or more decimal
digits, raw nonempty — the decomposition at the last '#' is unique), load
resolves to the element at index n of the subsequence of the platform's
current fonts whose raw postscript name equals raw, in discovery order; any
other name resolves to the first exact match; and when no such entry exists
the result is `ok none` (null), never an error. -/
theorem c6_load_resolution (fonts : List FontData) (name : String) :
    (∀ (raw : String) (ds : List Char),
        raw.data ≠ [] → ds ≠ [] → ds.all isDigitChar = true →
        name.data = raw.data ++ Char.ofNat 35 :: ds →
        loadFontData true (Except.ok fonts) name =
          finishLoad ((fonts.filter (fun f => f.postscriptName = raw)).get?
            (natOfDigits ds))) ∧
    ((∀ (raw : String) (ds : List Char),
        raw.data ≠ [] → ds ≠ [] → ds.all isDigitChar = true →
        name.data ≠ raw.data ++ Char.ofNat 35 :: ds) →
        loadFontData true (Except.ok fonts) name =
          finishLoad ((fonts.filter (fun f => f.postscriptName = name)).get? 0)) ∧
    ((∀ f ∈ fonts, ¬ f.postscriptName = name ∧
        ∀ ds : List Char, name.data ≠ f.postscriptName.data ++ Char.ofNat 35 :: ds) →
        loadFontData true (Except.ok fonts) name = Except.ok none) := by
  have hload : ∀ t : String × Nat, targetOf name = t →
      loadFontData true (Except.ok fonts) name =
        finishLoad ((fonts.filter (fun f => f.postscriptName = t.1)).get? t.2) := by
    intro t ht
    unfold loadFontData
    rw [ht]
    rfl
  refine ⟨?_, ?_, ?_⟩
  · intro raw ds hraw hne hall hdata
    have hsplit : dupSplit name.data = some (raw.data, ds) := by
      rw [hdata]
      exact dupSplit_append_digits raw.data ds hne hall
    have hmatch : duplicateMatch name = some (raw, natOfDigits ds) := by
      unfold duplicateMatch
      rw [hsplit]
      simp [hraw]
    exact hload (raw, natOfDigits ds) (by unfold targetOf; rw [hmatch])
  · intro hno
    have hmatch : duplicateMatch name = none := by
      unfold duplicateMatch
      cases hsplit : dupSplit name.data with
      | none => rfl
      | some p =>
        obtain ⟨hdata, hne, hall⟩ := dupSplit_sound name.data p.1 p.2 (by rw [hsplit])
        by_cases hp : p.1 = []
        · simp [hp]
        · exact absurd hdata (hno ⟨p.1⟩ p.2 hp hne hall)
    exact hload (name, 0) (by unfold targetOf; rw [hmatch])
  · intro hno
    cases hmatch : duplicateMatch name with
    | some p =>
      obtain ⟨ds, hdata, hne, hall, hn, hraw⟩ := duplicateMatch_some hmatch
      have hfil : fonts.filter (fun f => f.postscriptName = p.1) = [] := by
        rw [List.filter_eq_nil_iff]
        intro f hf
        simp only [decide_eq_true_eq]
        intro heq
        apply (hno f hf).2 ds
        rw [hdata, heq]
      rw [hload p (by unfold targetOf; rw [hmatch]), hfil]
      rfl
    | none =>
      have hfil : fonts.filter (fun f => f.postscriptName = name) = [] := by
        rw [List.filter_eq_nil_iff]
        intro f hf
        simp only [decide_eq_true_eq]
        exact (hno f hf).1
      rw [hload (name, 0) (by unfold targetOf; rw [hmatch]), hfil]
      rfl

/-- Witness for C6: on a platform directory with three fonts sharing raw
name "Name", loading "Name#2" resolves to the third occurrence. -/
theorem c6_load_resolution_witness :
    loadFontData true
        (Except.ok
          [⟨"F", "N1", "Name", "R", Except.ok [1]⟩,
           ⟨"F", "N2", "Name", "R", Except.ok [2]⟩,
           ⟨"F", "N3", "Name", "R", Except.ok [3]⟩])
        "Name#2" =
      Except.ok (some ⟨"F", "N3", "Name", "R", [3], FontType.trueType⟩) := by
  rw [(c6_load_resolution _ "Name#2").1 "Name" [Char.ofNat 50]
    (by decide) (by decide) (by decide) (by decide)]
  rfl

/-! ### C10: FontPlugin.loadFont never rejects -/

inductive FontEvent where
  | fontLoaded (font : LoadedFont)
  | fontLoadError (postscriptName : String)
deriving DecidableEq, Repr

/-- The plugin state's session load cache (`state.loadedFonts`), keyed by
the requested postscript name. -/
structure FontPluginState where
  loadedFonts : String → Option LoadedFont

/-- The `ADD_LOADED_FONT` dispatch: store the loaded font under its
postscript name. -/
def addLoadedFont (st : FontPluginState) (f : LoadedFont) : FontPluginState :=
  ⟨fun k => if k = f.postscriptName then some f else st.loadedFonts k⟩

/-- The body of the `try` block of `FontPlugin.loadFont`: cache lookup, then
`loadFontData`; a load error propagates out of the block. Returns the new
state, the events emitted, and the resolved value. -/
def loadFontTry (supported : Bool) (platform : Except String (List FontData))
    (st : FontPluginState) (ps : String) :
    Except FontErr (FontPluginState × List FontEvent × Option LoadedFont) :=
  match st.loadedFonts ps with
  | some existing => Except.ok (st, [], some existing)
  | none =>
      match loadFontData supported platform ps with
      | Except.error e => Except.error e
      | Except.ok none => Except.ok (st, [], none)
      | Except.ok (some font) =>
          Except.ok (addLoadedFont st font, [FontEvent.fontLoaded font], some font)

/-- Model of `FontPlugin.loadFont`: the surrounding `catch` turns any thrown
error into a `font:load-error` event and a null resolution. -/
def loadFont (supported : Bool) (platform : Except String (List FontData))
    (st : FontPluginState) (ps : String) :
    FontPluginState × List FontEvent × Option LoadedFont :=
  match loadFontTry supported platform st ps with
  | Except.ok r => r
  | Except.error _ => (st, [FontEvent.fontLoadError ps], none)

/-- Claim C10: `loadFont` never rejects — it always returns a plain triple.
When the underlying `loadFontData` throws (platform unsupported, query
rejection, or blob read failure) on a cache miss, the error is caught, a
`font:load-error` event is emitted, and the call resolves with null; a cache
hit returns the cached font with no events; a clean null load resolves null
with no events. -/
theorem c10_load_font_total (supported : Bool)
    (platform : Except String (List FontData)) (st : FontPluginState)
    (ps : String) :
    (∀ e, st.loadedFonts ps = none →
      loadFontData supported platform ps = Except.error e →
      loadFont supported platform st ps =
        (st, [FontEvent.fontLoadError ps], none)) ∧
    (st.loadedFonts ps = none →
      loadFontData supported platform ps = Except.ok none →
      loadFont supported platform st ps = (st, [], none)) ∧
    (∀ f, st.loadedFonts ps = some f →
      loadFont supported platform st ps = (st, [], some f)) := by
  refine ⟨?_, ?_, ?_⟩
  · intro e hmiss herr
    unfold loadFont loadFontTry
    rw [hmiss, herr]
  · intro hmiss hok
    unfold loadFont loadFontTry
    rw [hmiss, hok]
  · intro f hhit
    unfold loadFont loadFontTry
    rw [hhit]

/-- Witness for C10: on an unsupported platform with an empty cache,
`loadFont` resolves with null and emits the load-error event rather than
rejecting. -/
theorem c10_load_font_total_witness :
    loadFont false (Except.ok []) ⟨fun _ => none⟩ "X" =
      (⟨fun _ => none⟩, [FontEvent.fontLoadError "X"], none) :=
  (c10_load_font_total false (Except.ok []) ⟨fun _ => none⟩ "X").1
    FontErr.unsupported rfl rfl

/-! ### Annotation records

The shape of the `PdfAnnotationObject` fields the export path reads
(id, page index, subtype discriminator, geometry and style fields). -/

structure Rect where
  x : Rat
  y : Rat
  w : Rat
  h : Rat
deriving DecidableEq, Repr

inductive PdfFontRef where
  | standard (font : Nat)
  | custom (postscriptName fullName : String)
deriving DecidableEq, Repr

structure FreeTextData where
  rect : Rect
  fontFamily : PdfFontRef
  fontSize : Rat
  fontColor : Option String
  backgroundColor : Option String
  contents : Option String
  opacity : Option Rat
deriving DecidableEq, Repr

structure MarkupData where
  segmentRects : List Rect
  color : Option String
  strokeWidth : Option Rat
  opacity : Option Rat
deriving DecidableEq, Repr

inductive AnnoData where
  | freeText (d : FreeTextData)
  | underline (d : MarkupData)
  | strikeOut (d : MarkupData)
  | squiggly (d : MarkupData)
  | other
deriving DecidableEq, Repr

structure Annot where
  id : Nat
  pageIndex : Nat
  data : AnnoData
deriving DecidableEq, Repr

/-- Model of `isCustomRenderAnnotation`: free-text with a custom font
reference; underline, strikeout and squiggly always; nothing else. -/
def isCustomRenderAnno (a : Annot) : Bool :=
  match a.data with
  | AnnoData.freeText d =>
      match d.fontFamily with
      | PdfFontRef.custom _ _ => true
      | PdfFontRef.standard _ => false
  | AnnoData.underline _ => true
  | AnnoData.strikeOut _ => true
  | AnnoData.squiggly _ => true
  | AnnoData.other => false

/-! ### The export orchestration (examples' export-button.tsx, handleExport)

The primary engine's live annotation state is a list of records;
`deleteAnnotation(page, id)` and `importAnnotations` are the engine calls the
handler makes. The base export (`saveAsCopy`) and the pdf-lib compositing
stage are external asynchronous calls, abstracted by their outcomes. -/

structure Engine where
  annots : List Annot
deriving DecidableEq, Repr

/-- Engine call `deleteAnnotation(page, id)`: removes the record(s) with the
given page and id from the live state. -/
def deleteAnno (e : Engine) (page id : Nat) : Engine :=
  ⟨e.annots.filter (fun a => ¬ (a.pageIndex = page ∧ a.id = id))⟩

/-- Engine call `importAnnotations([{annotation}])` for one record. -/
def importAnno (e : Engine) (a : Annot) : Engine :=
  ⟨e.annots ++ [a]⟩

/-- The Removing loop: one `deleteAnnotation` call per record. -/
def removeAll (e : Engine) (l : List Annot) : Engine :=
  l.foldl (fun acc a => deleteAnno acc a.pageIndex a.id) e

/-- The observable outcome of the `try` block of `handleExport`:
final engine state, resolved bytes or the thrown error, whether the pdf-lib
compositing stage ran, and the records re-imported. -/
structure ExportOutcome where
  engine : Engine
  result : Except String (List Nat)
  compositorCalled : Bool
  reimported : List Annot
deriving DecidableEq, Repr

/-- The Classifying step: the custom-render records, in live-state order. -/
def customOf (e : Engine) : List Annot :=
  e.annots.filter isCustomRenderAnno

/-- The `try` block of `handleExport`: classify, remove the custom-render
records (when any), base-export, composite (only when custom records exist),
then re-import the removed records — the re-import happens only on the
compositing success path, exactly as in the source. -/
def handleExportTry (e : Engine)
    (baseExport : Engine → Except String (List Nat))
    (composite : List Nat → List Annot → Except String (List Nat)) :
    ExportOutcome :=
  let custom := customOf e
  let e1 := if 0 < custom.length then removeAll e custom else e
  match baseExport e1 with
  | Except.error err => ⟨e1, Except.error err, false, []⟩
  | Except.ok base =>
      if 0 < custom.length then
        match composite base custom with
        | Except.error err => ⟨e1, Except.error err, true, []⟩
        | Except.ok final =>
            ⟨custom.foldl importAnno e1, Except.ok final, true, custom⟩
      else ⟨e1, Except.ok base, false, []⟩

/-- `handleExport` itself: the surrounding `catch` logs the error and
returns normally, so the call resolves either with the final bytes or with
nothing; it never rejects. -/
def handleExport (e : Engine)
    (baseExport : Engine → Except String (List Nat))
    (composite : List Nat → List Annot → Except String (List Nat)) :
    Engine × Option (List Nat) :=
  let o := handleExportTry e baseExport composite
  match o.result with
  | Except.ok b => (o.engine, some b)
  | Except.error _ => (o.engine, none)

/-! ### C3: empty custom-render set -/

/-- Claim C3: when the classified custom-render set is empty, nothing is
deleted from the engine, the compositor never runs, and the export result is
exactly the base-export outcome — on success the returned bytes are
byte-for-byte the engine's base bytes. -/
theorem c3_empty_custom_passthrough (e : Engine)
    (baseExport : Engine → Except String (List Nat))
    (composite : List Nat → List Annot → Except String (List Nat))
    (hempty : e.annots.filter isCustomRenderAnno = []) :
    (handleExportTry e baseExport composite).engine = e ∧
    (handleExportTry e baseExport composite).compositorCalled = false ∧
    (handleExportTry e baseExport composite).result = baseExport e := by
  unfold handleExportTry customOf
  rw [hempty]
  simp only [List.length_nil, Nat.lt_irrefl, if_false]
  cases hb : baseExport e with
  | error err => exact ⟨rfl, rfl, rfl⟩
  | ok base => exact ⟨rfl, rfl, rfl⟩

/-- Witness for C3: an engine holding only a stamp-like annotation and a
standard-font free-text annotation has an empty custom-render set; the
export passes the base bytes through untouched. -/
theorem c3_empty_custom_passthrough_witness :
    (handleExportTry
        ⟨[⟨1, 0, AnnoData.other⟩,
          ⟨2, 0, AnnoData.freeText ⟨⟨0, 0, 1, 1⟩, PdfFontRef.standard 0, 12,
            none, none, some "hi", none⟩⟩]⟩
        (fun _ => Except.ok [7, 7, 7]) (fun b _ => Except.ok b)).engine =
      ⟨[⟨1, 0, AnnoData.other⟩,
        ⟨2, 0, AnnoData.freeText ⟨⟨0, 0, 1, 1⟩, PdfFontRef.standard 0, 12,
          none, none, some "hi", none⟩⟩]⟩ ∧
    (handleExportTry
        ⟨[⟨1, 0, AnnoData.other⟩,
          ⟨2, 0, AnnoData.freeText ⟨⟨0, 0, 1, 1⟩, PdfFontRef.standard 0, 12,
            none, none, some "hi", none⟩⟩]⟩
        (fun _ => Except.ok [7, 7, 7]) (fun b _ => Except.ok b)).compositorCalled
      = false ∧
    (handleExportTry
        ⟨[⟨1, 0, AnnoData.other⟩,
          ⟨2, 0, AnnoData.freeText ⟨⟨0, 0, 1, 1⟩, PdfFontRef.standard 0, 12,
            none, none, some "hi", none⟩⟩]⟩
        (fun _ => Except.ok [7, 7, 7]) (fun b _ => Except.ok b)).result =
      Except.ok [7, 7, 7] :=
  c3_empty_custom_passthrough _ _ _ (by decide)

/-! ### Lemmas on Removing and Reimporting -/

theorem removeAll_annots (l : List Annot) :
    ∀ e : Engine, (removeAll e l).annots =
      e.annots.filter
        (fun a => ¬ ∃ c ∈ l, a.pageIndex = c.pageIndex ∧ a.id = c.id) := by
  induction l with
  | nil =>
    intro e
    show e.annots = _
    rw [eq_comm, List.filter_eq_self]
    intro a _
    simp
  | cons c l ih =>
    intro e
    show (removeAll (deleteAnno e c.pageIndex c.id) l).annots = _
    rw [ih]
    unfold deleteAnno
    show (List.filter _ (List.filter _ e.annots)) = _
    rw [List.filter_filter]
    apply List.filter_congr
    intro a _
    rw [Bool.eq_iff_iff]
    simp only [Bool.and_eq_true, decide_eq_true_eq, List.mem_cons]
    constructor
    · rintro ⟨h1, h2⟩ ⟨x, hx | hx, hkey⟩
      · exact h2 (hx ▸ hkey)
      · exact h1 ⟨x, hx, hkey⟩
    · intro h
      constructor
      · rintro ⟨x, hx, hkey⟩
        exact h ⟨x, Or.inr hx, hkey⟩
      · intro hkey
        exact h ⟨c, Or.inl rfl, hkey⟩

theorem foldl_importAnno (l : List Annot) :
    ∀ e : Engine, (l.foldl importAnno e).annots = e.annots ++ l := by
  induction l with
  | nil => intro e; simp
  | cons c l ih =>
    intro e
    show (l.foldl importAnno ⟨e.annots ++ [c]⟩).annots = _
    rw [ih]
    simp

/-- Under distinct (page, id) keys, surviving the Removing loop for the
custom-render records is the same as not being custom-render. -/
theorem removeAll_custom_eq_filter (e : Engine)
    (hkeys : (e.annots.map (fun a => (a.pageIndex, a.id))).Nodup) :
    (removeAll e (customOf e)).annots =
      e.annots.filter (fun a => !(isCustomRenderAnno a)) := by
  rw [removeAll_annots]
  apply List.filter_congr
  intro a ha
  have hinj := List.inj_on_of_nodup_map hkeys
  by_cases hc : isCustomRenderAnno a = true
  · simp only [hc, Bool.not_true, decide_eq_false_iff_not, not_not]
    exact ⟨a, List.mem_filter.mpr ⟨ha, hc⟩, rfl, rfl⟩
  · simp only [hc, Bool.not_false, decide_eq_true_eq]
    rintro ⟨x, hx, hp, hi⟩
    have hxmem := List.mem_filter.mp hx
    have : a = x := hinj ha hxmem.1 (by rw [Prod.mk.injEq]; exact ⟨hp, hi⟩)
    exact hc (this ▸ hxmem.2)

theorem handleExportTry_pos (e : Engine)
    (baseExport : Engine → Except String (List Nat))
    (composite : List Nat → List Annot → Except String (List Nat))
    (hlen : 0 < (customOf e).length) :
    handleExportTry e baseExport composite =
      match baseExport (removeAll e (customOf e)) with
      | Except.error err => ⟨removeAll e (customOf e), Except.error err, false, []⟩
      | Except.ok base =>
          match composite base (customOf e) with
          | Except.error err =>
              ⟨removeAll e (customOf e), Except.error err, true, []⟩
          | Except.ok fin =>
              ⟨(customOf e).foldl importAnno (removeAll e (customOf e)),
                Except.ok fin, true, customOf e⟩ := by
  unfold handleExportTry
  simp only [if_pos hlen]

theorem handleExportTry_pos_ok (e : Engine)
    (baseExport : Engine → Except String (List Nat))
    (composite : List Nat → List Annot → Except String (List Nat))
    (hlen : 0 < (customOf e).length) {base : List Nat}
    (hb : baseExport (removeAll e (customOf e)) = Except.ok base) :
    handleExportTry e baseExport composite =
      match composite base (customOf e) with
      | Except.error err =>
          ⟨removeAll e (customOf e), Except.error err, true, []⟩
      | Except.ok fin =>
          ⟨(customOf e).foldl importAnno (removeAll e (customOf e)),
            Except.ok fin, true, customOf e⟩ := by
  rw [handleExportTry_pos e baseExport composite hlen, hb]

theorem handleExportTry_neg (e : Engine)
    (baseExport : Engine → Except String (List Nat))
    (composite : List Nat → List Annot → Except String (List Nat))
    (hlen : ¬ 0 < (customOf e).length) :
    handleExportTry e baseExport composite =
      match baseExport e with
      | Except.error err => ⟨e, Except.error err, false, []⟩
      | Except.ok base => ⟨e, Except.ok base, false, []⟩ := by
  unfold handleExportTry
  simp only [if_neg hlen]

theorem handleExport_eq (e : Engine)
    (baseExport : Engine → Except String (List Nat))
    (composite : List Nat → List Annot → Except String (List Nat)) :
    handleExport e baseExport composite =
      ((handleExportTry e baseExport composite).engine,
        match (handleExportTry e baseExport composite).result with
        | Except.ok b => some b
        | Except.error _ => none) := by
  show (match (handleExportTry e baseExport composite).result with
    | Except.ok b => ((handleExportTry e baseExport composite).engine, some b)
    | Except.error _ => ((handleExportTry e baseExport composite).engine, none)) = _
  cases h : (handleExportTry e baseExport composite).result with
  | ok b => rfl
  | error err => rfl

/-! ### C1: annotation-set preservation across export -/

/-- Claim C1 (counterexample): the claim asserts the engine's annotation-id
set is unchanged however export settles; but when the base export fails after
the Removing phase, the deleted underline annotation (id 1) is never
reimported — the engine ends empty while it held id 1 before the call. -/
theorem c1_base_failure_loses_ids :
    (handleExport ⟨[⟨1, 0, AnnoData.underline ⟨[⟨0, 0, 1, 1⟩], none, none, none⟩⟩]⟩
        (fun _ => Except.error "saveAsCopy failed")
        (fun b _ => Except.ok b)).1.annots.map (fun a => a.id) = [] ∧
    (⟨[⟨1, 0, AnnoData.underline ⟨[⟨0, 0, 1, 1⟩], none, none, none⟩⟩]⟩ :
        Engine).annots.map (fun a => a.id) = [1] := by
  constructor
  · rfl
  · rfl

/-- Claim C1 (amended): under distinct (page, id) keys, the annotation set
is restored exactly when export resolves with bytes (the live state is then a
permutation of the pre-export state, reimported records moving to the end);
when export settles without bytes (a stage threw after Removing), every
removed custom-render record is missing from the final live state. -/
theorem c1_export_id_preservation (e : Engine)
    (baseExport : Engine → Except String (List Nat))
    (composite : List Nat → List Annot → Except String (List Nat))
    (hkeys : (e.annots.map (fun a => (a.pageIndex, a.id))).Nodup) :
    (∀ bytes, (handleExport e baseExport composite).2 = some bytes →
      List.Perm (handleExport e baseExport composite).1.annots e.annots) ∧
    ((handleExport e baseExport composite).2 = none →
      ∀ c ∈ customOf e, ∀ a ∈ (handleExport e baseExport composite).1.annots,
        ¬ (a.pageIndex = c.pageIndex ∧ a.id = c.id)) := by
  rw [handleExport_eq]
  have hremoved : ∀ c ∈ customOf e, ∀ a ∈ (removeAll e (customOf e)).annots,
      ¬ (a.pageIndex = c.pageIndex ∧ a.id = c.id) := by
    intro c hc a ha
    rw [removeAll_annots] at ha
    have hpred := (List.mem_filter.mp ha).2
    rw [decide_eq_true_eq] at hpred
    intro hkey
    exact hpred ⟨c, hc, hkey⟩
  by_cases hlen : 0 < (customOf e).length
  · cases hb : baseExport (removeAll e (customOf e)) with
    | error err =>
      have htry : handleExportTry e baseExport composite =
          ⟨removeAll e (customOf e), Except.error err, false, []⟩ := by
        rw [handleExportTry_pos e baseExport composite hlen, hb]
      rw [htry]
      constructor
      · intro bytes h
        exact Option.noConfusion h
      · intro _ c hc a ha
        exact hremoved c hc a ha
    | ok base =>
      cases hcomp : composite base (customOf e) with
      | error err =>
        have htry : handleExportTry e baseExport composite =
            ⟨removeAll e (customOf e), Except.error err, true, []⟩ := by
          rw [handleExportTry_pos_ok e baseExport composite hlen hb, hcomp]
        rw [htry]
        constructor
        · intro bytes h
          exact Option.noConfusion h
        · intro _ c hc a ha
          exact hremoved c hc a ha
      | ok fin =>
        have htry : handleExportTry e baseExport composite =
            ⟨(customOf e).foldl importAnno (removeAll e (customOf e)),
              Except.ok fin, true, customOf e⟩ := by
          rw [handleExportTry_pos_ok e baseExport composite hlen hb, hcomp]
        rw [htry]
        constructor
        · intro bytes _
          show List.Perm
            ((customOf e).foldl importAnno (removeAll e (customOf e))).annots
            e.annots
          rw [foldl_importAnno, removeAll_custom_eq_filter e hkeys]
          exact List.perm_append_comm.trans
            (List.filter_append_perm isCustomRenderAnno e.annots)
        · intro h
          exact Option.noConfusion h
  · have hemp : customOf e = [] := by
      cases hq : customOf e with
      | nil => rfl
      | cons x xs => rw [hq] at hlen; simp at hlen
    cases hb : baseExport e with
    | error err =>
      have htry : handleExportTry e baseExport composite =
          ⟨e, Except.error err, false, []⟩ := by
        rw [handleExportTry_neg e baseExport composite hlen, hb]
      rw [htry]
      refine ⟨fun bytes h => Option.noConfusion h, fun _ c hc => ?_⟩
      rw [hemp] at hc
      cases hc
    | ok base =>
      have htry : handleExportTry e baseExport composite =
          ⟨e, Except.ok base, false, []⟩ := by
        rw [handleExportTry_neg e baseExport composite hlen, hb]
      rw [htry]
      refine ⟨fun bytes _ => List.Perm.refl _, fun h => Option.noConfusion h⟩

/-- Witness for C1: a successful export over an engine holding one underline
and one stamp-like annotation (distinct keys) ends with a live state that is
a permutation of the initial one. -/
theorem c1_export_id_preservation_witness :
    List.Perm
      (handleExport
        ⟨[⟨1, 0, AnnoData.underline ⟨[⟨0, 0, 1, 1⟩], none, none, none⟩⟩,
          ⟨2, 0, AnnoData.other⟩]⟩
        (fun _ => Except.ok [5]) (fun b _ => Except.ok b)).1.annots
      [⟨1, 0, AnnoData.underline ⟨[⟨0, 0, 1, 1⟩], none, none, none⟩⟩,
        ⟨2, 0, AnnoData.other⟩] :=
  (c1_export_id_preservation
      ⟨[⟨1, 0, AnnoData.underline ⟨[⟨0, 0, 1, 1⟩], none, none, none⟩⟩,
        ⟨2, 0, AnnoData.other⟩]⟩
      (fun _ => Except.ok [5]) (fun b _ => Except.ok b) (by decide)).1
    [5] (by decide)

/-! ### C2: error propagation after Removing -/

/-- Claim C2 (counterexample): the claim asserts export rejects with the
originating error only after the removed annotations were reimported; but on
a compositing failure the `catch` swallows the error (the call resolves with
no bytes instead of rejecting) and the removed strikeout annotation is not
reimported: the engine ends empty. -/
theorem c2_composite_failure_swallowed :
    (handleExportTry ⟨[⟨2, 0, AnnoData.strikeOut ⟨[⟨0, 0, 1, 1⟩], none, none, none⟩⟩]⟩
        (fun _ => Except.ok [1]) (fun _ _ => Except.error "pdf-lib failed")).result
      = Except.error "pdf-lib failed" ∧
    handleExport ⟨[⟨2, 0, AnnoData.strikeOut ⟨[⟨0, 0, 1, 1⟩], none, none, none⟩⟩]⟩
        (fun _ => Except.ok [1]) (fun _ _ => Except.error "pdf-lib failed")
      = (⟨[]⟩, none) := by
  constructor
  · rfl
  · rfl

/-- Claim C2 (amended): when a stage throws after the Removing phase, the
handler catches the error — the call resolves without bytes rather than
rejecting — no removed record is reimported, and (under distinct keys) the
live state is left exactly without the custom-render records. -/
theorem c2_failure_no_reimport (e : Engine)
    (baseExport : Engine → Except String (List Nat))
    (composite : List Nat → List Annot → Except String (List Nat))
    (hkeys : (e.annots.map (fun a => (a.pageIndex, a.id))).Nodup) :
    ∀ err, (handleExportTry e baseExport composite).result = Except.error err →
      (handleExport e baseExport composite).2 = none ∧
      (handleExportTry e baseExport composite).reimported = [] ∧
      (handleExport e baseExport composite).1.annots =
        e.annots.filter (fun a => !(isCustomRenderAnno a)) := by
  intro err herr
  rw [handleExport_eq, herr]
  by_cases hlen : 0 < (customOf e).length
  · cases hb : baseExport (removeAll e (customOf e)) with
    | error berr =>
      have htry : handleExportTry e baseExport composite =
          ⟨removeAll e (customOf e), Except.error berr, false, []⟩ := by
        rw [handleExportTry_pos e baseExport composite hlen, hb]
      rw [htry]
      exact ⟨rfl, rfl, removeAll_custom_eq_filter e hkeys⟩
    | ok base =>
      cases hcomp : composite base (customOf e) with
      | error cerr =>
        have htry : handleExportTry e baseExport composite =
            ⟨removeAll e (customOf e), Except.error cerr, true, []⟩ := by
          rw [handleExportTry_pos_ok e baseExport composite hlen hb, hcomp]
        rw [htry]
        exact ⟨rfl, rfl, removeAll_custom_eq_filter e hkeys⟩
      | ok fin =>
        have htry : handleExportTry e baseExport composite =
            ⟨(customOf e).foldl importAnno (removeAll e (customOf e)),
              Except.ok fin, true, customOf e⟩ := by
          rw [handleExportTry_pos_ok e baseExport composite hlen hb, hcomp]
        rw [htry] at herr
        exact absurd herr (by simp)
  · have hemp : customOf e = [] := by
      cases hq : customOf e with
      | nil => rfl
      | cons x xs => rw [hq] at hlen; simp at hlen
    cases hb : baseExport e with
    | error berr =>
      have htry : handleExportTry e baseExport composite =
          ⟨e, Except.error berr, false, []⟩ := by
        rw [handleExportTry_neg e baseExport composite hlen, hb]
      rw [htry]
      refine ⟨rfl, rfl, ?_⟩
      show e.annots = _
      rw [eq_comm, List.filter_eq_self]
      intro a ha
      have hno := List.filter_eq_nil_iff.mp hemp a ha
      simp only [Bool.not_eq_true] at hno
      simp [hno]
    | ok base =>
      have htry : handleExportTry e baseExport composite =
          ⟨e, Except.ok base, false, []⟩ := by
        rw [handleExportTry_neg e baseExport composite hlen, hb]
      rw [htry] at herr
      exact absurd herr (by simp)

/-- Witness for C2: a base-export failure over an engine holding one
squiggly annotation resolves with no bytes, reimports nothing, and leaves
the live state without the squiggly record. -/
theorem c2_failure_no_reimport_witness :
    (handleExport ⟨[⟨3, 0, AnnoData.squiggly ⟨[⟨0, 0, 1, 1⟩], none, none, none⟩⟩]⟩
        (fun _ => Except.error "saveAsCopy rejected") (fun b _ => Except.ok b)).2
      = none ∧
    (handleExportTry ⟨[⟨3, 0, AnnoData.squiggly ⟨[⟨0, 0, 1, 1⟩], none, none, none⟩⟩]⟩
        (fun _ => Except.error "saveAsCopy rejected") (fun b _ => Except.ok b)).reimported
      = [] ∧
    (handleExport ⟨[⟨3, 0, AnnoData.squiggly ⟨[⟨0, 0, 1, 1⟩], none, none, none⟩⟩]⟩
        (fun _ => Except.error "saveAsCopy rejected") (fun b _ => Except.ok b)).1.annots
      = [⟨3, 0, AnnoData.squiggly ⟨[⟨0, 0, 1, 1⟩], none, none, none⟩⟩].filter
          (fun a => !(isCustomRenderAnno a)) :=
  c2_failure_no_reimport
      ⟨[⟨3, 0, AnnoData.squiggly ⟨[⟨0, 0, 1, 1⟩], none, none, none⟩⟩]⟩
      (fun _ => Except.error "saveAsCopy rejected") (fun b _ => Except.ok b)
      (by decide) "saveAsCopy rejected" (by decide)

/-! ### The overlay compositor (pdf-export, exportPdfWithCustomAnnotations)

For the orchestration claims above the compositing stage was abstracted by
its outcome; here its drawing behaviour is modelled as the sequence of
pdf-lib calls it issues. Color strings are carried as the argument the code
passes to `parseHexColor`/`rgb` (the claims are color-agnostic); geometry is
exact rational arithmetic. `embedOk` is the (deterministic) success of
`pdfDoc.embedFont` on given font bytes; a recorded `embedFontCall` op is one
actual `embedFont` invocation. -/

inductive PathCmd where
  | move (x y : Rat)
  | quadRel (dx1 dy1 dx dy : Rat)
  | smoothRel (dx dy : Rat)
deriving DecidableEq, Repr

inductive PageOp where
  | drawRect (pageIndex : Nat) (x y w h : Rat) (color : String) (opacity : Rat)
  | drawText (pageIndex : Nat) (line : String) (x y size : Rat)
      (fontPs : String) (color : String) (opacity : Rat)
  | drawSvgPath (pageIndex : Nat) (d : List PathCmd) (x y : Rat)
      (borderColor : String) (fillColor : Option String)
      (borderOpacity borderWidth : Rat)
  | embedFontCall (postscriptName : String)
deriving DecidableEq, Repr

/-- JavaScript `o || d` for an optional number (0 and absent are falsy). -/
def jsOrRat (o : Option Rat) (d : Rat) : Rat :=
  match o with
  | none => d
  | some v => if v = 0 then d else v

/-- JavaScript `o || d` for an optional string ("" and absent are falsy). -/
def jsOrStr (o : Option String) (d : String) : String :=
  match o with
  | none => d
  | some s => if s = "" then d else s

/-- Font-data map lookup (`fontDataMap.get(psName)`). -/
def lookupFont (m : List (String × List Nat)) (ps : String) : Option (List Nat) :=
  (m.find? (fun kv => kv.1 = ps)).map (fun kv => kv.2)

/-- The repeated relative quadratic curve segments of the squiggly wave:
one `q (period/4) -amplitude (period/2) 0 t (period/2) 0` pair per cycle. -/
def waveCycles : Nat → Rat → Rat → List PathCmd
  | 0, _, _ => []
  | n + 1, period, amplitude =>
      PathCmd.quadRel (period / 4) (-amplitude) (period / 2) 0 ::
        PathCmd.smoothRel (period / 2) 0 :: waveCycles n period amplitude

/-- The text-line loop of the free-text branch: one `drawText` per line,
descending by the line height. -/
def textLineOps (pageIndex : Nat) : List String → Rat → Rat → Rat → String →
    String → Rat → Rat → List PageOp
  | [], _, _, _, _, _, _, _ => []
  | line :: rest, x, curY, size, ps, color, opacity, lineHeight =>
      PageOp.drawText pageIndex line x curY size ps color opacity ::
        textLineOps pageIndex rest x (curY - lineHeight) size ps color opacity
          lineHeight

/-- The background rectangle of the free-text branch: drawn only when the
user set one explicitly (absent and "" are falsy) and it is not
"transparent". -/
def bgOps (pageIndex : Nat) (pageHeight : Rat) (d : FreeTextData) :
    List PageOp :=
  match d.backgroundColor with
  | none => []
  | some bgc =>
      if bgc = "" ∨ bgc = "transparent" then []
      else [PageOp.drawRect pageIndex d.rect.x
        (pageHeight - d.rect.y - d.rect.h) d.rect.w d.rect.h bgc
        (d.opacity.getD 1)]

/-- The drawing part of the free-text branch (after the font is resolved):
empty text bails out; an explicitly set, non-transparent background is drawn
first; then the lines, with line height 1.2 x font size, first baseline at
rect top minus font size, and a 4-unit left padding. -/
def freeTextDraw (pageIndex : Nat) (pageHeight : Rat) (d : FreeTextData)
    (ps : String) : List PageOp :=
  if d.contents.getD "" = "" then []
  else
    bgOps pageIndex pageHeight d ++
      textLineOps pageIndex ((d.contents.getD "").splitOn "\n") (d.rect.x + 4)
        ((pageHeight - d.rect.y - d.rect.h) + d.rect.h - d.fontSize) d.fontSize
        ps (jsOrStr d.fontColor "#000000") (d.opacity.getD 1)
        (d.fontSize * (6 / 5 : Rat))

/-- The underline branch: per segment a filled bar of the segment's width,
height = stroke width, anchored at the segment's converted bottom edge. -/
def underlineOps (pageIndex : Nat) (pageHeight : Rat) (d : MarkupData) :
    List PageOp :=
  if d.segmentRects = [] then []
  else
    let color := jsOrStr d.color "#FFFF00"
    let strokeWidth := jsOrRat d.strokeWidth 1
    let opacity := d.opacity.getD 1
    d.segmentRects.map (fun r =>
      PageOp.drawRect pageIndex r.x (pageHeight - r.y - r.h) r.w strokeWidth
        color opacity)

/-- The strikeout branch: same loop, bar centered on the segment mid-height. -/
def strikeOutOps (pageIndex : Nat) (pageHeight : Rat) (d : MarkupData) :
    List PageOp :=
  if d.segmentRects = [] then []
  else
    let color := jsOrStr d.color "#FFFF00"
    let strokeWidth := jsOrRat d.strokeWidth 1
    let opacity := d.opacity.getD 1
    d.segmentRects.map (fun r =>
      PageOp.drawRect pageIndex r.x
        ((pageHeight - r.y - r.h) + r.h / 2 - strokeWidth / 2) r.w strokeWidth
        color opacity)

/-- The squiggly branch: per segment a stroked (never filled) wave path of
period 6 and amplitude = stroke width, ceil(width/period) cycles. -/
def squigglyOps (pageIndex : Nat) (pageHeight : Rat) (d : MarkupData) :
    List PageOp :=
  if d.segmentRects = [] then []
  else
    let color := jsOrStr d.color "#FFFF00"
    let strokeWidth := jsOrRat d.strokeWidth 1
    let opacity := d.opacity.getD 1
    let period : Rat := 6
    let amplitude := strokeWidth
    d.segmentRects.map (fun r =>
      PageOp.drawSvgPath pageIndex
        (PathCmd.move 0 amplitude ::
          waveCycles ((Int.ceil (r.w / period)).toNat) period amplitude)
        r.x (pageHeight - r.y - r.h) color none opacity strokeWidth)

/-- One iteration of the annotation loop: invalid pages are skipped; the
free-text branch resolves the custom font (embedding at most once per name
via the `embeddedFonts` cache, recording every `embedFont` call, caching only
successful embeds) and then draws; the markup branches append their ops. The
state is (ops so far, successfully embedded postscript names). -/
def processAnno (pages : List Rat) (fontMap : List (String × List Nat))
    (embedOk : List Nat → Bool) (st : List PageOp × List String) (a : Annot) :
    List PageOp × List String :=
  match pages.get? a.pageIndex with
  | none => st
  | some pageHeight =>
      match a.data with
      | AnnoData.freeText d =>
          match d.fontFamily with
          | PdfFontRef.standard _ => st
          | PdfFontRef.custom ps _ =>
              match lookupFont fontMap ps with
              | none => st
              | some bytes =>
                  if ps ∈ st.2 then
                    (st.1 ++ freeTextDraw a.pageIndex pageHeight d ps, st.2)
                  else if embedOk bytes then
                    (st.1 ++ PageOp.embedFontCall ps ::
                      freeTextDraw a.pageIndex pageHeight d ps, st.2 ++ [ps])
                  else (st.1 ++ [PageOp.embedFontCall ps], st.2)
      | AnnoData.underline d =>
          (st.1 ++ underlineOps a.pageIndex pageHeight d, st.2)
      | AnnoData.strikeOut d =>
          (st.1 ++ strikeOutOps a.pageIndex pageHeight d, st.2)
      | AnnoData.squiggly d =>
          (st.1 ++ squigglyOps a.pageIndex pageHeight d, st.2)
      | AnnoData.other => st

/-- Model of `exportPdfWithCustomAnnotations`: the sequence of pdf-lib calls
issued over the annotation loop, starting from an empty document overlay and
an empty per-export font-embedding cache. `pages` is the base document's page
heights. -/
def exportPdfWithCustomAnnotations (pages : List Rat) (annos : List Annot)
    (fontMap : List (String × List Nat)) (embedOk : List Nat → Bool) :
    List PageOp :=
  (annos.foldl (processAnno pages fontMap embedOk) ([], [])).1

/-! ### C9: markup geometry on the concrete segment of the claim -/

/-- Claim C9: for a segment rectangle with origin (10,20) and size (100,4)
on a page of height 800 with stroke width 2: the underline is a filled bar
at y = 800-20-4 = 776 of height 2 spanning the full width 100; the strikeout
is a filled bar at y = 777 of height 2 (centered on the segment mid-height
778); the squiggly is a stroked, never filled, wave path of period 6 and
amplitude 2 tiling ceil(100/6) = 17 cycles. -/
theorem c9_markup_geometry :
    exportPdfWithCustomAnnotations [800]
        [⟨1, 0, AnnoData.underline ⟨[⟨10, 20, 100, 4⟩], some "#FF0000", some 2,
          none⟩⟩] [] (fun _ => true) =
      [PageOp.drawRect 0 10 776 100 2 "#FF0000" 1] ∧
    exportPdfWithCustomAnnotations [800]
        [⟨1, 0, AnnoData.strikeOut ⟨[⟨10, 20, 100, 4⟩], some "#FF0000", some 2,
          none⟩⟩] [] (fun _ => true) =
      [PageOp.drawRect 0 10 777 100 2 "#FF0000" 1] ∧
    (Int.ceil ((100 : Rat) / 6)).toNat = 17 ∧
    exportPdfWithCustomAnnotations [800]
        [⟨1, 0, AnnoData.squiggly ⟨[⟨10, 20, 100, 4⟩], some "#FF0000", some 2,
          none⟩⟩] [] (fun _ => true) =
      [PageOp.drawSvgPath 0 (PathCmd.move 0 2 :: waveCycles 17 6 2) 10 776
        "#FF0000" none 1 2] := by
  have hceil : Int.ceil ((100 : Rat) / 6) = 17 := by
    rw [Int.ceil_eq_iff]
    constructor <;> norm_num
  refine ⟨?_, ?_, ?_, ?_⟩
  · simp only [exportPdfWithCustomAnnotations, List.foldl, processAnno,
      underlineOps, jsOrStr, jsOrRat]
    norm_num
    exact fun h => absurd h (by decide)
  · simp only [exportPdfWithCustomAnnotations, List.foldl, processAnno,
      strikeOutOps, jsOrStr, jsOrRat]
    norm_num
    exact fun h => absurd h (by decide)
  · rw [hceil]; rfl
  · simp only [exportPdfWithCustomAnnotations, List.foldl, processAnno,
      squigglyOps, jsOrStr, jsOrRat]
    rw [show ((100 : Rat) / 6) = 50 / 3 by norm_num] at hceil
    norm_num [hceil]
    exact ⟨rfl, fun h => absurd h (by decide)⟩

/-! ### C4: per-export font-embedding memoization -/

/-- Number of `embedFont` invocations for a given postscript name in an op
trace. -/
def countEmbedCalls (ps : String) (ops : List PageOp) : Nat :=
  (ops.filter (fun op => op = PageOp.embedFontCall ps)).length

theorem countEmbedCalls_append (ps : String) (l₁ l₂ : List PageOp) :
    countEmbedCalls ps (l₁ ++ l₂) =
      countEmbedCalls ps l₁ + countEmbedCalls ps l₂ := by
  unfold countEmbedCalls
  rw [List.filter_append, List.length_append]

theorem countEmbedCalls_zero {ps : String} {l : List PageOp}
    (h : ∀ op ∈ l, ∀ q, op ≠ PageOp.embedFontCall q) :
    countEmbedCalls ps l = 0 := by
  unfold countEmbedCalls
  rw [List.length_eq_zero, List.filter_eq_nil_iff]
  intro op hop
  simp only [decide_eq_true_eq]
  exact h op hop ps

theorem mem_textLineOps_ne_embed (pi : Nat) :
    ∀ (lines : List String) (x y s : Rat) (q c : String) (o lh : Rat),
      ∀ op ∈ textLineOps pi lines x y s q c o lh,
        ∀ r, op ≠ PageOp.embedFontCall r := by
  intro lines
  induction lines with
  | nil => intro x y s q c o lh op hop; cases hop
  | cons line rest ih =>
    intro x y s q c o lh op hop
    rcases List.mem_cons.mp hop with hop | hop
    · subst hop
      intro r
      simp
    · exact ih x (y - lh) s q c o lh op hop

theorem mem_bgOps_ne_embed (pi : Nat) (ph : Rat) (d : FreeTextData) :
    ∀ op ∈ bgOps pi ph d, ∀ r, op ≠ PageOp.embedFontCall r := by
  intro op hop
  unfold bgOps at hop
  split at hop
  · cases hop
  · split at hop
    · cases hop
    · rcases List.mem_singleton.mp hop with rfl
      intro r
      simp

theorem mem_freeTextDraw_ne_embed (pi : Nat) (ph : Rat) (d : FreeTextData)
    (q : String) :
    ∀ op ∈ freeTextDraw pi ph d q, ∀ r, op ≠ PageOp.embedFontCall r := by
  intro op hop
  unfold freeTextDraw at hop
  split at hop
  · cases hop
  · rcases List.mem_append.mp hop with hbg | htxt
    · exact mem_bgOps_ne_embed pi ph d op hbg
    · exact mem_textLineOps_ne_embed pi _ _ _ _ _ _ _ _ op htxt

theorem mem_underlineOps_ne_embed (pi : Nat) (ph : Rat) (d : MarkupData) :
    ∀ op ∈ underlineOps pi ph d, ∀ r, op ≠ PageOp.embedFontCall r := by
  intro op hop
  unfold underlineOps at hop
  split at hop
  · cases hop
  · obtain ⟨rct, _, hop⟩ := List.mem_map.mp hop
    rw [← hop]
    intro r
    simp

theorem mem_strikeOutOps_ne_embed (pi : Nat) (ph : Rat) (d : MarkupData) :
    ∀ op ∈ strikeOutOps pi ph d, ∀ r, op ≠ PageOp.embedFontCall r := by
  intro op hop
  unfold strikeOutOps at hop
  split at hop
  · cases hop
  · obtain ⟨rct, _, hop⟩ := List.mem_map.mp hop
    rw [← hop]
    intro r
    simp

theorem mem_squigglyOps_ne_embed (pi : Nat) (ph : Rat) (d : MarkupData) :
    ∀ op ∈ squigglyOps pi ph d, ∀ r, op ≠ PageOp.embedFontCall r := by
  intro op hop
  unfold squigglyOps at hop
  split at hop
  · cases hop
  · obtain ⟨rct, _, hop⟩ := List.mem_map.mp hop
    rw [← hop]
    intro r
    simp

/-! Equation lemmas for the per-annotation step. -/

theorem processAnno_page_none {pages : List Rat}
    {fontMap : List (String × List Nat)} {embedOk : List Nat → Bool}
    {a : Annot} (hph : pages.get? a.pageIndex = none)
    (st : List PageOp × List String) :
    processAnno pages fontMap embedOk st a = st := by
  unfold processAnno
  simp only [hph]

theorem processAnno_other {pages : List Rat}
    {fontMap : List (String × List Nat)} {embedOk : List Nat → Bool}
    {a : Annot} {ph : Rat} (hph : pages.get? a.pageIndex = some ph)
    (hdata : a.data = AnnoData.other) (st : List PageOp × List String) :
    processAnno pages fontMap embedOk st a = st := by
  unfold processAnno
  simp only [hph, hdata]

theorem processAnno_underline {pages : List Rat}
    {fontMap : List (String × List Nat)} {embedOk : List Nat → Bool}
    {a : Annot} {ph : Rat} {d : MarkupData}
    (hph : pages.get? a.pageIndex = some ph)
    (hdata : a.data = AnnoData.underline d) (st : List PageOp × List String) :
    processAnno pages fontMap embedOk st a =
      (st.1 ++ underlineOps a.pageIndex ph d, st.2) := by
  unfold processAnno
  simp only [hph, hdata]

theorem processAnno_strikeOut {pages : List Rat}
    {fontMap : List (String × List Nat)} {embedOk : List Nat → Bool}
    {a : Annot} {ph : Rat} {d : MarkupData}
    (hph : pages.get? a.pageIndex = some ph)
    (hdata : a.data = AnnoData.strikeOut d) (st : List PageOp × List String) :
    processAnno pages fontMap embedOk st a =
      (st.1 ++ strikeOutOps a.pageIndex ph d, st.2) := by
  unfold processAnno
  simp only [hph, hdata]

theorem processAnno_squiggly {pages : List Rat}
    {fontMap : List (String × List Nat)} {embedOk : List Nat → Bool}
    {a : Annot} {ph : Rat} {d : MarkupData}
    (hph : pages.get? a.pageIndex = some ph)
    (hdata : a.data = AnnoData.squiggly d) (st : List PageOp × List String) :
    processAnno pages fontMap embedOk st a =
      (st.1 ++ squigglyOps a.pageIndex ph d, st.2) := by
  unfold processAnno
  simp only [hph, hdata]

theorem processAnno_standard {pages : List Rat}
    {fontMap : List (String × List Nat)} {embedOk : List Nat → Bool}
    {a : Annot} {ph : Rat} {d : FreeTextData} {k : Nat}
    (hph : pages.get? a.pageIndex = some ph)
    (hdata : a.data = AnnoData.freeText d)
    (hfont : d.fontFamily = PdfFontRef.standard k)
    (st : List PageOp × List String) :
    processAnno pages fontMap embedOk st a = st := by
  unfold processAnno
  simp only [hph, hdata, hfont]

theorem processAnno_lookup_none {pages : List Rat}
    {fontMap : List (String × List Nat)} {embedOk : List Nat → Bool}
    {a : Annot} {ph : Rat} {d : FreeTextData} {q fn : String}
    (hph : pages.get? a.pageIndex = some ph)
    (hdata : a.data = AnnoData.freeText d)
    (hfont : d.fontFamily = PdfFontRef.custom q fn)
    (hlook : lookupFont fontMap q = none) (st : List PageOp × List String) :
    processAnno pages fontMap embedOk st a = st := by
  unfold processAnno
  simp only [hph, hdata, hfont, hlook]

theorem processAnno_custom {pages : List Rat}
    {fontMap : List (String × List Nat)} {embedOk : List Nat → Bool}
    {a : Annot} {ph : Rat} {d : FreeTextData} {q fn : String} {b : List Nat}
    (hph : pages.get? a.pageIndex = some ph)
    (hdata : a.data = AnnoData.freeText d)
    (hfont : d.fontFamily = PdfFontRef.custom q fn)
    (hlook : lookupFont fontMap q = some b) (st : List PageOp × List String) :
    processAnno pages fontMap embedOk st a =
      (if q ∈ st.2 then (st.1 ++ freeTextDraw a.pageIndex ph d q, st.2)
       else if embedOk b then
         (st.1 ++ PageOp.embedFontCall q :: freeTextDraw a.pageIndex ph d q,
           st.2 ++ [q])
       else (st.1 ++ [PageOp.embedFontCall q], st.2)) := by
  unfold processAnno
  simp only [hph, hdata, hfont, hlook]

theorem countEmbedCalls_cons_self (ps : String) (l : List PageOp) :
    countEmbedCalls ps (PageOp.embedFontCall ps :: l) =
      countEmbedCalls ps l + 1 := by
  unfold countEmbedCalls
  rw [List.filter_cons]
  simp

theorem countEmbedCalls_cons_ne {q ps : String} (hq : q ≠ ps)
    (l : List PageOp) :
    countEmbedCalls ps (PageOp.embedFontCall q :: l) =
      countEmbedCalls ps l := by
  unfold countEmbedCalls
  rw [List.filter_cons]
  have hne : (decide (PageOp.embedFontCall q = PageOp.embedFontCall ps)) =
      false := by
    simp [hq]
  rw [hne]
  simp

/-- The per-annotation step preserves the cache invariant: the trace holds
exactly one embed call for `ps` when `ps` is cached, none otherwise. -/
theorem processAnno_inv {pages : List Rat} {fontMap : List (String × List Nat)}
    {embedOk : List Nat → Bool} {ps : String} {bytes : List Nat}
    (hbytes : lookupFont fontMap ps = some bytes) (hok : embedOk bytes = true)
    (a : Annot) (st : List PageOp × List String)
    (h : countEmbedCalls ps st.1 = if ps ∈ st.2 then 1 else 0) :
    countEmbedCalls ps (processAnno pages fontMap embedOk st a).1 =
      if ps ∈ (processAnno pages fontMap embedOk st a).2 then 1 else 0 := by
  cases hph : pages.get? a.pageIndex with
  | none => rw [processAnno_page_none hph]; exact h
  | some ph =>
    cases hdata : a.data with
    | other => rw [processAnno_other hph hdata]; exact h
    | underline d =>
      rw [processAnno_underline hph hdata, countEmbedCalls_append,
        countEmbedCalls_zero (mem_underlineOps_ne_embed _ _ _)]
      simpa using h
    | strikeOut d =>
      rw [processAnno_strikeOut hph hdata, countEmbedCalls_append,
        countEmbedCalls_zero (mem_strikeOutOps_ne_embed _ _ _)]
      simpa using h
    | squiggly d =>
      rw [processAnno_squiggly hph hdata, countEmbedCalls_append,
        countEmbedCalls_zero (mem_squigglyOps_ne_embed _ _ _)]
      simpa using h
    | freeText d =>
      cases hfont : d.fontFamily with
      | standard k => rw [processAnno_standard hph hdata hfont]; exact h
      | custom q fn =>
        cases hlook : lookupFont fontMap q with
        | none => rw [processAnno_lookup_none hph hdata hfont hlook]; exact h
        | some b =>
          rw [processAnno_custom hph hdata hfont hlook]
          by_cases hcache : q ∈ st.2
          · rw [if_pos hcache]
            simp only
            rw [countEmbedCalls_append,
              countEmbedCalls_zero (mem_freeTextDraw_ne_embed _ _ _ _)]
            simpa using h
          · rw [if_neg hcache]
            by_cases hembed : embedOk b = true
            · rw [if_pos hembed]
              simp only
              rw [countEmbedCalls_append]
              by_cases hq : q = ps
              · subst hq
                rw [if_neg hcache] at h
                rw [h, countEmbedCalls_cons_self,
                  countEmbedCalls_zero (mem_freeTextDraw_ne_embed _ _ _ _),
                  if_pos (List.mem_append.mpr (Or.inr (List.mem_singleton.mpr rfl)))]
              · rw [countEmbedCalls_cons_ne hq,
                  countEmbedCalls_zero (mem_freeTextDraw_ne_embed _ _ _ _),
                  Nat.add_zero, h]
                have hiff : (ps ∈ st.2 ++ [q]) ↔ ps ∈ st.2 := by
                  simp only [List.mem_append, List.mem_singleton]
                  exact ⟨fun hh => hh.resolve_right (fun he => hq he.symm),
                    Or.inl⟩
                by_cases hin : ps ∈ st.2
                · rw [if_pos hin, if_pos (hiff.mpr hin)]
                · rw [if_neg hin, if_neg (fun hh => hin (hiff.mp hh))]
            · rw [if_neg hembed]
              simp only
              by_cases hq : q = ps
              · subst hq
                rw [hlook] at hbytes
                have hb : b = bytes := by injection hbytes
                rw [hb] at hembed
                exact absurd hok hembed
              · rw [countEmbedCalls_append, countEmbedCalls_cons_ne hq,
                  countEmbedCalls_zero (fun op hop => absurd hop
                    (List.not_mem_nil op))]
                simpa using h

/-- The embedding cache only grows. -/
theorem processAnno_cache_mono {pages : List Rat}
    {fontMap : List (String × List Nat)} {embedOk : List Nat → Bool}
    {ps : String} (a : Annot) (st : List PageOp × List String)
    (h : ps ∈ st.2) : ps ∈ (processAnno pages fontMap embedOk st a).2 := by
  cases hph : pages.get? a.pageIndex with
  | none => rw [processAnno_page_none hph]; exact h
  | some ph =>
    cases hdata : a.data with
    | other => rw [processAnno_other hph hdata]; exact h
    | underline d => rw [processAnno_underline hph hdata]; exact h
    | strikeOut d => rw [processAnno_strikeOut hph hdata]; exact h
    | squiggly d => rw [processAnno_squiggly hph hdata]; exact h
    | freeText d =>
      cases hfont : d.fontFamily with
      | standard k => rw [processAnno_standard hph hdata hfont]; exact h
      | custom q fn =>
        cases hlook : lookupFont fontMap q with
        | none => rw [processAnno_lookup_none hph hdata hfont hlook]; exact h
        | some b =>
          rw [processAnno_custom hph hdata hfont hlook]
          by_cases hcache : q ∈ st.2
          · rw [if_pos hcache]; exact h
          · rw [if_neg hcache]
            by_cases hembed : embedOk b = true
            · rw [if_pos hembed]
              exact List.mem_append.mpr (Or.inl h)
            · rw [if_neg hembed]; exact h

/-- Processing a valid-page free-text annotation referencing `ps` (binary in
the map, embed succeeding) leaves `ps` cached. -/
theorem processAnno_trigger {pages : List Rat}
    {fontMap : List (String × List Nat)} {embedOk : List Nat → Bool}
    {ps : String} {bytes : List Nat}
    (hbytes : lookupFont fontMap ps = some bytes) (hok : embedOk bytes = true)
    {a : Annot} {d : FreeTextData} {fn : String}
    (hpage : a.pageIndex < pages.length)
    (hdata : a.data = AnnoData.freeText d)
    (hfont : d.fontFamily = PdfFontRef.custom ps fn)
    (st : List PageOp × List String) :
    ps ∈ (processAnno pages fontMap embedOk st a).2 := by
  obtain ⟨ph, hph⟩ : ∃ ph, pages.get? a.pageIndex = some ph :=
    ⟨pages.get ⟨a.pageIndex, hpage⟩, List.get?_eq_get hpage⟩
  rw [processAnno_custom hph hdata hfont hbytes]
  by_cases hcache : ps ∈ st.2
  · rw [if_pos hcache]
    exact hcache
  · rw [if_neg hcache, if_pos hok]
    simp

theorem foldl_processAnno_inv {pages : List Rat}
    {fontMap : List (String × List Nat)} {embedOk : List Nat → Bool}
    {ps : String} {bytes : List Nat}
    (hbytes : lookupFont fontMap ps = some bytes) (hok : embedOk bytes = true) :
    ∀ (l : List Annot) (st : List PageOp × List String),
      countEmbedCalls ps st.1 = (if ps ∈ st.2 then 1 else 0) →
      countEmbedCalls ps (l.foldl (processAnno pages fontMap embedOk) st).1 =
        if ps ∈ (l.foldl (processAnno pages fontMap embedOk) st).2 then 1
        else 0 := by
  intro l
  induction l with
  | nil => intro st h; exact h
  | cons a l ih =>
    intro st h
    exact ih _ (processAnno_inv hbytes hok a st h)

theorem foldl_processAnno_mono {pages : List Rat}
    {fontMap : List (String × List Nat)} {embedOk : List Nat → Bool}
    {ps : String} :
    ∀ (l : List Annot) (st : List PageOp × List String),
      ps ∈ st.2 →
      ps ∈ (l.foldl (processAnno pages fontMap embedOk) st).2 := by
  intro l
  induction l with
  | nil => intro st h; exact h
  | cons a l ih =>
    intro st h
    exact ih _ (processAnno_cache_mono a st h)

/-- Claim C4: within one export call, `embedFont` runs at most once per
postscript-name identity — whenever at least one free-text annotation on a
valid page references a custom postscript name whose binary is in the font
map (and the embed succeeds on those bytes), the op trace contains exactly
one `embedFont` call for that name, later annotations hitting the cache. -/
theorem c4_embed_memoized (pages : List Rat)
    (fontMap : List (String × List Nat)) (embedOk : List Nat → Bool)
    (annos : List Annot) (ps : String) (bytes : List Nat)
    (hbytes : lookupFont fontMap ps = some bytes)
    (hok : embedOk bytes = true)
    (href : ∃ a ∈ annos, a.pageIndex < pages.length ∧
      ∃ d, a.data = AnnoData.freeText d ∧
        ∃ fn, d.fontFamily = PdfFontRef.custom ps fn) :
    countEmbedCalls ps
      (exportPdfWithCustomAnnotations pages annos fontMap embedOk) = 1 := by
  obtain ⟨a, hmem, hpage, d, hdata, fn, hfont⟩ := href
  obtain ⟨s, t, rfl⟩ := List.append_of_mem hmem
  unfold exportPdfWithCustomAnnotations
  rw [List.foldl_append, List.foldl_cons]
  have hinv0 : countEmbedCalls ps (([], []) : List PageOp × List String).1 =
      if ps ∈ (([], []) : List PageOp × List String).2 then 1 else 0 := by
    simp [countEmbedCalls]
  have hinv1 := @foldl_processAnno_inv pages fontMap embedOk ps bytes
    hbytes hok s ([], []) hinv0
  have hinv2 := @processAnno_inv pages fontMap embedOk ps bytes hbytes hok a
    (s.foldl (processAnno pages fontMap embedOk) ([], [])) hinv1
  have hcached := processAnno_trigger hbytes hok hpage hdata hfont
    (s.foldl (processAnno pages fontMap embedOk) ([], []))
  have hfinal := @foldl_processAnno_inv pages fontMap embedOk ps bytes
    hbytes hok t _ hinv2
  rw [hfinal, if_pos (@foldl_processAnno_mono pages fontMap embedOk ps t _
    hcached)]

/-- Witness for C4: two free-text annotations sharing custom font "F1"
(binary present, embed succeeding) produce exactly one embed call. -/
theorem c4_embed_memoized_witness :
    countEmbedCalls "F1"
      (exportPdfWithCustomAnnotations [800]
        [⟨1, 0, AnnoData.freeText ⟨⟨0, 0, 50, 20⟩, PdfFontRef.custom "F1" "Font One",
          12, none, none, some "hello", none⟩⟩,
         ⟨2, 0, AnnoData.freeText ⟨⟨0, 40, 50, 20⟩, PdfFontRef.custom "F1" "Font One",
          12, none, none, some "world", none⟩⟩]
        [("F1", [0, 1, 0, 0])] (fun _ => true)) = 1 :=
  c4_embed_memoized [800] [("F1", [0, 1, 0, 0])] (fun _ => true)
    [⟨1, 0, AnnoData.freeText ⟨⟨0, 0, 50, 20⟩, PdfFontRef.custom "F1" "Font One",
      12, none, none, some "hello", none⟩⟩,
     ⟨2, 0, AnnoData.freeText ⟨⟨0, 40, 50, 20⟩, PdfFontRef.custom "F1" "Font One",
      12, none, none, some "world", none⟩⟩]
    "F1" [0, 1, 0, 0] rfl rfl
    ⟨⟨1, 0, AnnoData.freeText ⟨⟨0, 0, 50, 20⟩, PdfFontRef.custom "F1" "Font One",
        12, none, none, some "hello", none⟩⟩,
      List.mem_cons_self _ _, by decide,
      ⟨⟨0, 0, 50, 20⟩, PdfFontRef.custom "F1" "Font One",
        12, none, none, some "hello", none⟩, rfl, "Font One", rfl⟩

end MePdf
